import Mathlib

/-!
Verification of the commit-relay server (src/index.js): a shallow embedding
of its patch parser (`parsePatch`), its rate-limit guard
(`makeGitHubRequest`) and the shaping logic of the diff endpoint, together
with proofs of the specified properties.

JavaScript strings are embedded as `List Char` (`JsStr`); `split('\n')`,
`startsWith` and the header regular expression are embedded as executable
functions on character lists.
-/

/-- A JavaScript string, embedded as its sequence of characters. -/
abbrev JsStr := List Char

/-- Embedding of `String.prototype.startsWith` for a fixed search string. -/
def jsStartsWith : JsStr → JsStr → Bool
  | [], _ => true
  | _ :: _, [] => false
  | p :: ps, c :: cs => p == c && jsStartsWith ps cs

/-- Embedding of `str.split(sep)` for a one-character separator, as used by
`patch.split('\n')` in `parsePatch`. -/
def jsSplit (sep : Char) : JsStr → List JsStr
  | [] => [[]]
  | c :: cs =>
    if c = sep then [] :: jsSplit sep cs
    else
      match jsSplit sep cs with
      | [] => [[c]]
      | s :: rest => (c :: s) :: rest

/-- Joining a list of lines with `'\n'` separators (the reconstruction of a
patch text from its lines, used for the round-trip property). -/
def joinNL : List JsStr → JsStr
  | [] => []
  | [s] => s
  | s :: rest => s ++ '\n' :: joinNL rest

/-- The newline separator used by `parsePatch`. -/
def nl : Char := '\n'

/-- The search string of `line.startsWith('@@')`. -/
def hdrP : JsStr := ['@', '@']

/-- The search string of `line.startsWith('-')`. -/
def minusP : JsStr := ['-']

/-- The search string of `line.startsWith('+')`. -/
def plusP : JsStr := ['+']

/-- Greedily take the leading run of decimal digits (the `\d+` / `\d*`
pieces of the header regular expression). -/
def takeDigits : JsStr → JsStr × JsStr
  | [] => ([], [])
  | c :: cs =>
    if c.isDigit then
      let r := takeDigits cs
      (c :: r.1, r.2)
    else ([], c :: cs)

/-- Skip one optional comma (the `,?` piece of the header pattern). -/
def skipComma : JsStr → JsStr
  | ',' :: cs => cs
  | cs => cs

/-- `parseInt` on a non-empty string of decimal digits. -/
def digitsToNat (ds : JsStr) : Nat :=
  ds.foldl (fun n c => n * 10 + (c.toNat - '0'.toNat)) 0

/-- Embedding of `line.match(/^@@ -(\d+),?\d* \+(\d+),?\d* @@/)` followed by
`parseInt` on the two capture groups.  Because the character classes
digit / comma / space are disjoint, the greedy left-to-right scan below
accepts exactly the strings the backtracking regular-expression engine
accepts, and captures the same two digit runs. -/
def headerMatch (line : JsStr) : Option (Nat × Nat) :=
  match line with
  | '@' :: '@' :: ' ' :: '-' :: r0 =>
    let p1 := takeDigits r0
    if p1.1 = [] then none
    else
      let p2 := takeDigits (skipComma p1.2)
      match p2.2 with
      | ' ' :: '+' :: r4 =>
        let q1 := takeDigits r4
        if q1.1 = [] then none
        else
          let q2 := takeDigits (skipComma q1.2)
          match q2.2 with
          | ' ' :: '@' :: '@' :: _ => some (digitsToNat p1.1, digitsToNat q1.1)
          | _ => none
      | _ => none
  | _ => none

/-- One parsed line of a hunk: `{ baseLineNumber, headLineNumber, content }`
(`null` embedded as `none`). -/
structure LineRecord where
  baseLineNumber : Option Nat
  headLineNumber : Option Nat
  content : JsStr
deriving DecidableEq

/-- One hunk: `{ header, lines }`. -/
structure Hunk where
  header : JsStr
  lines : List LineRecord
deriving DecidableEq

/-- The mutable state of the `lines.forEach` loop of `parsePatch`. -/
structure ParseState where
  hunks : List Hunk
  currentHunk : Option Hunk
  baseLine : Nat
  headLine : Nat
deriving DecidableEq

/-- The body of the `lines.forEach(line => ...)` callback of `parsePatch`,
acting on the loop state. -/
def parsePatchStep (st : ParseState) (line : JsStr) : ParseState :=
  if jsStartsWith hdrP line then
    let hunks' := st.hunks ++ st.currentHunk.toList
    match headerMatch line with
    | some (bs, hs) => ⟨hunks', some ⟨line, []⟩, bs, hs⟩
    | none => ⟨hunks', some ⟨line, []⟩, st.baseLine, st.headLine⟩
  else
    match st.currentHunk with
    | some hk =>
      if jsStartsWith minusP line then
        ⟨st.hunks, some ⟨hk.header, hk.lines ++ [⟨some st.baseLine, none, line⟩]⟩,
          st.baseLine + 1, st.headLine⟩
      else if jsStartsWith plusP line then
        ⟨st.hunks, some ⟨hk.header, hk.lines ++ [⟨none, some st.headLine, line⟩]⟩,
          st.baseLine, st.headLine + 1⟩
      else
        ⟨st.hunks, some ⟨hk.header, hk.lines ++ [⟨some st.baseLine, some st.headLine, line⟩]⟩,
          st.baseLine + 1, st.headLine + 1⟩
    | none => st

/-- The trailing `if (currentHunk) hunks.push(currentHunk)` of `parsePatch`. -/
def finalizeState (st : ParseState) : List Hunk :=
  st.hunks ++ st.currentHunk.toList

/-- Embedding of `parsePatch(patch)` from src/index.js. -/
def parsePatch (patch : JsStr) : List Hunk :=
  finalizeState ((jsSplit nl patch).foldl parsePatchStep ⟨[], none, 0, 0⟩)

/-! Helper notions used only in statements and proofs (not part of the
embedding): the record a single loop iteration builds from counters `b`, `h`
and a content line, and the numbering of a block of content lines. -/

/-- The `LineRecord` the loop body pushes for content line `c` when the
counters stand at `b` (base) and `h` (head). -/
def mkRec (b h : Nat) (c : JsStr) : LineRecord :=
  if jsStartsWith minusP c then ⟨some b, none, c⟩
  else if jsStartsWith plusP c then ⟨none, some h, c⟩
  else ⟨some b, some h, c⟩

/-- Number a block of content lines starting from counters `b`, `h`. -/
def numberLines (b h : Nat) : List JsStr → List LineRecord
  | [] => []
  | c :: cs =>
    if jsStartsWith minusP c then ⟨some b, none, c⟩ :: numberLines (b + 1) h cs
    else if jsStartsWith plusP c then ⟨none, some h, c⟩ :: numberLines b (h + 1) cs
    else ⟨some b, some h, c⟩ :: numberLines (b + 1) (h + 1) cs

/-- How many of the given content lines advance the base counter (all lines
not starting with `+`). -/
def cntB (cs : List JsStr) : Nat := cs.countP (fun c => !jsStartsWith plusP c)

/-- How many of the given content lines advance the head counter (all lines
not starting with `-`). -/
def cntH (cs : List JsStr) : Nat := cs.countP (fun c => !jsStartsWith minusP c)

/-- A hunk as produced by the parser: its header is a header line, its
records' contents are non-header lines without embedded newlines, and its
records are numbered from some pair of starting counters which agree with
the header whenever the header matches the `@@ -N[,M] +N[,M] @@` pattern. -/
def hunkGood (hk : Hunk) : Prop :=
  jsStartsWith hdrP hk.header = true ∧ nl ∉ hk.header ∧
  (∀ r ∈ hk.lines, jsStartsWith hdrP r.content = false ∧ nl ∉ r.content) ∧
  ∃ b0 h0,
    (∀ bs hs, headerMatch hk.header = some (bs, hs) → b0 = bs ∧ h0 = hs) ∧
    hk.lines = numberLines b0 h0 (hk.lines.map LineRecord.content)

/-- `hunkGood` strengthened for the hunk still being accumulated: the
starting counters additionally explain the current counter values. -/
def openGood (b h : Nat) (hk : Hunk) : Prop :=
  jsStartsWith hdrP hk.header = true ∧ nl ∉ hk.header ∧
  (∀ r ∈ hk.lines, jsStartsWith hdrP r.content = false ∧ nl ∉ r.content) ∧
  ∃ b0 h0,
    (∀ bs hs, headerMatch hk.header = some (bs, hs) → b0 = bs ∧ h0 = hs) ∧
    hk.lines = numberLines b0 h0 (hk.lines.map LineRecord.content) ∧
    b = b0 + cntB (hk.lines.map LineRecord.content) ∧
    h = h0 + cntH (hk.lines.map LineRecord.content)

/-- Loop invariant of `parsePatch`: closed hunks are good, and the open
hunk (if any) is good relative to the current counters. -/
def stInv (st : ParseState) : Prop :=
  (∀ hk ∈ st.hunks, hunkGood hk) ∧
  ∀ hk, st.currentHunk = some hk → openGood st.baseLine st.headLine hk

/-- A hunk's reconstructed lines: its raw header line followed by the
contents of its records. -/
def reconLines (hk : Hunk) : List JsStr :=
  hk.header :: hk.lines.map LineRecord.content

/-- Claim C4 as stated: within any parsed hunk whose header matched the
pattern, every context record's head/base line numbers differ by the
hunk's starting delta. -/
def C4Claim : Prop :=
  ∀ patch hk, hk ∈ parsePatch patch →
    ∀ bs hs, headerMatch hk.header = some (bs, hs) →
      ∀ r ∈ hk.lines, ∀ b h,
        r.baseLineNumber = some b → r.headLineNumber = some h →
        (h : Int) - (b : Int) = (hs : Int) - (bs : Int)

/-! ### Embedding of the upstream client, the rate-limit guard and the
diff endpoint's shaping logic -/

/-- The two rate-limit response headers the guard reads
(`x-ratelimit-remaining`, `x-ratelimit-reset`); a missing header is `none`. -/
structure RespHeaders where
  xRatelimitRemaining : Option String
  xRatelimitReset : Option String
deriving DecidableEq

/-- The `response` field of an axios error: upstream status and headers. -/
structure AxiosResp where
  status : Nat
  headers : RespHeaders
deriving DecidableEq

/-- An axios failure: `response` is absent when no HTTP response arrived. -/
structure AxiosError where
  response : Option AxiosResp
  message : String
deriving DecidableEq

/-- A successful axios response; the handlers only read `.data`. -/
structure AxiosSuccess (α : Type) where
  data : α
deriving DecidableEq

/-- What `makeGitHubRequest` can produce for its caller: the raw successful
response, the `{error, retry_after}` rate-limit object, or a re-raised
error. -/
inductive GHResult (α : Type) where
  | success : AxiosSuccess α → GHResult α
  | rateLimited : (error : String) → (retryAfter : Option String) → GHResult α
  | thrown : AxiosError → GHResult α
deriving DecidableEq

/-- Embedding of `makeGitHubRequest` from src/index.js, as a function of the
outcome of the wrapped `githubApi.get` call. -/
def makeGitHubRequest {α : Type} (call : Except AxiosError (AxiosSuccess α)) : GHResult α :=
  match call with
  | .ok resp => .success resp
  | .error e =>
    if (match e.response with
        | some r => r.status == 403 && r.headers.xRatelimitRemaining == some "0"
        | none => false) then
      .rateLimited "GitHub API rate limit exceeded"
        (match e.response with
         | some r => r.headers.xRatelimitReset
         | none => none)
    else .thrown e

/-- One element of the upstream commit's `parents` array. -/
structure ParentRef where
  sha : String
deriving DecidableEq

/-- The part of the upstream commit object the diff handler reads
(`commitResponse.data.parents?.[0]?.sha`); `parents` is optional because the
handler guards the access with `?.`. -/
structure CommitData where
  parents : Option (List ParentRef)
deriving DecidableEq

/-- One element of the upstream compare result's `files` array; `patch` is
absent for binary or oversized files. -/
structure UpstreamFile where
  status : JsStr
  filename : String
  patch : Option JsStr
deriving DecidableEq

/-- `{ path }` as produced for `headFile` / `baseFile`. -/
structure FileRef where
  path : String
deriving DecidableEq

/-- The per-file object the diff endpoint returns. -/
structure FileDiff where
  changeKind : JsStr
  headFile : FileRef
  baseFile : FileRef
  hunks : List Hunk
deriving DecidableEq

/-- Embedding of `String.prototype.toUpperCase` (ASCII part, which covers
the upstream status strings). -/
def jsToUpperCase (s : JsStr) : JsStr := s.map Char.toUpper

/-- Embedding of the `diffResponse.data.files.map(file => ...)` callback.
JavaScript's `file.patch ? parsePatch(file.patch) : []` tests truthiness, so
both an absent patch and an empty-string patch give `[]`. -/
def mapFile (file : UpstreamFile) : FileDiff :=
  { changeKind := jsToUpperCase file.status
    headFile := ⟨file.filename⟩
    baseFile := ⟨file.filename⟩
    hunks :=
      match file.patch with
      | some p => if p = [] then [] else parsePatch p
      | none => [] }

/-- The upstream compare payload as read by the handler. -/
structure CompareData where
  files : List UpstreamFile
deriving DecidableEq

/-- The JSON bodies the two endpoints can send. -/
inductive RespBody where
  | files : List FileDiff → RespBody
  | rateLimit : (error : String) → (retryAfter : Option String) → RespBody
  | message : (message : String) → RespBody
  | messageError : (message : String) → (error : String) → RespBody
deriving DecidableEq

/-- An HTTP response: status code plus JSON body. -/
structure HttpResp where
  status : Nat
  body : RespBody
deriving DecidableEq

/-- `error.response?.status || 500`: `||` also replaces a zero status. -/
def errStatus (e : AxiosError) : Nat :=
  match e.response with
  | some r => if r.status = 0 then 500 else r.status
  | none => 500

/-- JavaScript falsiness of `parentOid` in `if (!parentOid)`: an absent
value or the empty string. -/
def isFalsyStr : Option String → Bool
  | none => true
  | some s => s == ""

/-- Embedding of the `/repositories/:owner/:repository/commits/:oid/diff`
handler, as a function of the outcome of the commit lookup and of the
compare lookup (indexed by the parent oid interpolated into the compare
URL).  The second component records which parent oid the compare call was
made with (`none` when no compare call happens). -/
def diffHandler (commitCall : Except AxiosError (AxiosSuccess CommitData))
    (compareCall : String → Except AxiosError (AxiosSuccess CompareData)) :
    HttpResp × Option String :=
  match makeGitHubRequest commitCall with
  | .rateLimited err ra => (⟨429, .rateLimit err ra⟩, none)
  | .thrown e => (⟨errStatus e, .messageError "Error fetching commit diff" e.message⟩, none)
  | .success resp =>
    let parentOid := (resp.data.parents.bind List.head?).map ParentRef.sha
    if isFalsyStr parentOid then
      (⟨400, .message "No parent commit found"⟩, none)
    else
      let p := parentOid.getD ""
      (match makeGitHubRequest (compareCall p) with
       | .rateLimited err ra => ⟨429, .rateLimit err ra⟩
       | .thrown e => ⟨errStatus e, .messageError "Error fetching commit diff" e.message⟩
       | .success dresp => ⟨200, .files (dresp.data.files.map mapFile)⟩,
       some p)

/-! ### Basic lemmas about the helper notions -/

theorem startsWith_minus_not_plus {c : JsStr} (h : jsStartsWith minusP c = true) :
    jsStartsWith plusP c = false := by
  cases c with
  | nil => simp [jsStartsWith, minusP] at h
  | cons a cs =>
    simp [jsStartsWith, minusP] at h
    subst h
    simp [jsStartsWith, plusP]

theorem numberLines_cons (b h : Nat) (c : JsStr) (cs : List JsStr) :
    numberLines b h (c :: cs) =
      mkRec b h c ::
        (if jsStartsWith minusP c then numberLines (b + 1) h cs
         else if jsStartsWith plusP c then numberLines b (h + 1) cs
         else numberLines (b + 1) (h + 1) cs) := by
  by_cases h1 : jsStartsWith minusP c = true
  · simp [numberLines, mkRec, h1]
  · by_cases h2 : jsStartsWith plusP c = true
    · simp [numberLines, mkRec, h1, h2]
    · simp [numberLines, mkRec, h1, h2]

theorem mkRec_content (b h : Nat) (c : JsStr) : (mkRec b h c).content = c := by
  unfold mkRec
  by_cases h1 : jsStartsWith minusP c = true
  · simp [h1]
  · by_cases h2 : jsStartsWith plusP c = true
    · simp [h1, h2]
    · simp [h1, h2]

theorem cntB_cons (c : JsStr) (cs : List JsStr) :
    cntB (c :: cs) = (if jsStartsWith plusP c then 0 else 1) + cntB cs := by
  by_cases h2 : jsStartsWith plusP c = true
  · simp [cntB, List.countP_cons, h2]
  · simp [cntB, List.countP_cons, h2]
    omega

theorem cntH_cons (c : JsStr) (cs : List JsStr) :
    cntH (c :: cs) = (if jsStartsWith minusP c then 0 else 1) + cntH cs := by
  by_cases h1 : jsStartsWith minusP c = true
  · simp [cntH, List.countP_cons, h1]
  · simp [cntH, List.countP_cons, h1]
    omega

theorem numberLines_map_content (cs : List JsStr) :
    ∀ b h, (numberLines b h cs).map LineRecord.content = cs := by
  induction cs with
  | nil => intro b h; simp [numberLines]
  | cons c cs ih =>
    intro b h
    by_cases h1 : jsStartsWith minusP c = true
    · simp [numberLines, h1, ih]
    · by_cases h2 : jsStartsWith plusP c = true
      · simp [numberLines, h1, h2, ih]
      · simp [numberLines, h1, h2, ih]

theorem numberLines_append (cs1 : List JsStr) :
    ∀ cs2 b h, numberLines b h (cs1 ++ cs2) =
      numberLines b h cs1 ++ numberLines (b + cntB cs1) (h + cntH cs1) cs2 := by
  induction cs1 with
  | nil => intro cs2 b h; simp [numberLines, cntB, cntH]
  | cons c cs ih =>
    intro cs2 b h
    by_cases h1 : jsStartsWith minusP c = true
    · have h2 := startsWith_minus_not_plus h1
      simp [numberLines, h1, ih, cntB_cons, cntH_cons, h2, Nat.add_assoc]
    · by_cases h2 : jsStartsWith plusP c = true
      · simp [numberLines, h1, h2, ih, cntB_cons, cntH_cons, Nat.add_assoc]
      · simp [numberLines, h1, h2, ih, cntB_cons, cntH_cons, Nat.add_assoc]

theorem numberLines_split (cs : List JsStr) :
    ∀ b0 h0 (p : List LineRecord) (r : LineRecord) (s : List LineRecord),
      numberLines b0 h0 cs = p ++ r :: s →
      r = mkRec (b0 + cntB (p.map LineRecord.content))
                (h0 + cntH (p.map LineRecord.content)) r.content := by
  induction cs with
  | nil =>
    intro b0 h0 p r s hEq
    simp [numberLines] at hEq
  | cons c cs ih =>
    intro b0 h0 p r s hEq
    rw [numberLines_cons] at hEq
    cases p with
    | nil =>
      rw [List.nil_append] at hEq
      injection hEq with hr hrest
      rw [← hr]
      simp [mkRec_content, cntB, cntH]
    | cons q p' =>
      rw [List.cons_append] at hEq
      injection hEq with hq hrest
      by_cases h1 : jsStartsWith minusP c = true
      · have h2 := startsWith_minus_not_plus h1
        rw [if_pos h1] at hrest
        rw [ih (b0 + 1) h0 p' r s hrest, ← hq]
        simp [mkRec_content, cntB_cons, cntH_cons, h1, h2, Nat.add_assoc]
      · by_cases h2 : jsStartsWith plusP c = true
        · rw [if_neg h1, if_pos h2] at hrest
          rw [ih b0 (h0 + 1) p' r s hrest, ← hq]
          simp [mkRec_content, cntB_cons, cntH_cons, h1, h2, Nat.add_assoc]
        · rw [if_neg h1, if_neg h2] at hrest
          rw [ih (b0 + 1) (h0 + 1) p' r s hrest, ← hq]
          simp [mkRec_content, cntB_cons, cntH_cons, h1, h2, Nat.add_assoc]

theorem jsSplit_ne_nil (sep : Char) (l : JsStr) : jsSplit sep l ≠ [] := by
  induction l with
  | nil => simp [jsSplit]
  | cons c cs ih =>
    by_cases hc : c = sep
    · simp [jsSplit, hc]
    · simp only [jsSplit, if_neg hc]
      cases hsp : jsSplit sep cs with
      | nil => simp
      | cons s rest => simp

theorem not_mem_of_mem_jsSplit (sep : Char) (l : JsStr) :
    ∀ s ∈ jsSplit sep l, sep ∉ s := by
  induction l with
  | nil =>
    intro s hs
    simp [jsSplit] at hs
    simp [hs]
  | cons c cs ih =>
    intro s hs
    by_cases hc : c = sep
    · simp only [jsSplit, if_pos hc] at hs
      rcases List.mem_cons.mp hs with h | h
      · simp [h]
      · exact ih s h
    · simp only [jsSplit, if_neg hc] at hs
      cases hsp : jsSplit sep cs with
      | nil => exact absurd hsp (jsSplit_ne_nil sep cs)
      | cons t rest =>
        rw [hsp] at hs
        rcases List.mem_cons.mp hs with h | h
        · subst h
          intro hmem
          rcases List.mem_cons.mp hmem with h' | h'
          · exact hc h'.symm
          · exact ih t (by rw [hsp]; exact List.mem_cons_self t rest) h'
        · exact ih s (by rw [hsp]; exact List.mem_cons_of_mem t h)

theorem jsSplit_no_sep (sep : Char) (s : JsStr) (h : sep ∉ s) : jsSplit sep s = [s] := by
  induction s with
  | nil => simp [jsSplit]
  | cons c cs ih =>
    have hc : ¬ c = sep := by
      intro he
      exact h (by rw [he]; exact List.mem_cons_self sep cs)
    simp only [jsSplit, if_neg hc]
    rw [ih (fun hm => h (List.mem_cons_of_mem c hm))]

theorem jsSplit_append_sep (sep : Char) (s rest : JsStr) (h : sep ∉ s) :
    jsSplit sep (s ++ sep :: rest) = s :: jsSplit sep rest := by
  induction s with
  | nil => simp [jsSplit]
  | cons c cs ih =>
    have hc : ¬ c = sep := by
      intro he
      exact h (by rw [he]; exact List.mem_cons_self sep cs)
    simp only [List.cons_append, jsSplit, if_neg hc, List.append_eq]
    rw [ih (fun hm => h (List.mem_cons_of_mem c hm))]

theorem jsSplit_joinNL (ls : List JsStr) (hne : ls ≠ []) (h : ∀ s ∈ ls, nl ∉ s) :
    jsSplit nl (joinNL ls) = ls := by
  induction ls with
  | nil => exact absurd rfl hne
  | cons s rest ih =>
    cases rest with
    | nil => simp [joinNL, jsSplit_no_sep nl s (h s (List.mem_cons_self s []))]
    | cons t rest' =>
      rw [show joinNL (s :: t :: rest') = s ++ nl :: joinNL (t :: rest') from rfl]
      rw [jsSplit_append_sep nl s _ (h s (List.mem_cons_self s (t :: rest')))]
      rw [ih (by simp) (fun x hx => h x (List.mem_cons_of_mem s hx))]

/-! ### Unfolding lemmas for a single loop iteration -/

theorem parsePatchStep_header_some (st : ParseState) (line : JsStr) (bs hs : Nat)
    (hh : jsStartsWith hdrP line = true) (hm : headerMatch line = some (bs, hs)) :
    parsePatchStep st line =
      ⟨st.hunks ++ st.currentHunk.toList, some ⟨line, []⟩, bs, hs⟩ := by
  simp [parsePatchStep, hh, hm]

theorem parsePatchStep_header_none (st : ParseState) (line : JsStr)
    (hh : jsStartsWith hdrP line = true) (hm : headerMatch line = none) :
    parsePatchStep st line =
      ⟨st.hunks ++ st.currentHunk.toList, some ⟨line, []⟩, st.baseLine, st.headLine⟩ := by
  simp [parsePatchStep, hh, hm]

theorem parsePatchStep_content (st : ParseState) (hk : Hunk) (line : JsStr)
    (hh : jsStartsWith hdrP line = false) (hcur : st.currentHunk = some hk) :
    parsePatchStep st line =
      ⟨st.hunks, some ⟨hk.header, hk.lines ++ [mkRec st.baseLine st.headLine line]⟩,
        st.baseLine + (if jsStartsWith plusP line then 0 else 1),
        st.headLine + (if jsStartsWith minusP line then 0 else 1)⟩ := by
  by_cases h1 : jsStartsWith minusP line = true
  · have h2 := startsWith_minus_not_plus h1
    simp [parsePatchStep, hh, hcur, mkRec, h1, h2]
  · by_cases h2 : jsStartsWith plusP line = true
    · simp [parsePatchStep, hh, hcur, mkRec, h1, h2]
    · simp [parsePatchStep, hh, hcur, mkRec, h1, h2]

theorem parsePatchStep_no_hunk (st : ParseState) (line : JsStr)
    (hh : jsStartsWith hdrP line = false) (hcur : st.currentHunk = none) :
    parsePatchStep st line = st := by
  simp [parsePatchStep, hh, hcur]

theorem numberLines_singleton (b h : Nat) (c : JsStr) :
    numberLines b h [c] = [mkRec b h c] := by
  rw [numberLines_cons]
  by_cases h1 : jsStartsWith minusP c = true
  · simp [numberLines, h1]
  · by_cases h2 : jsStartsWith plusP c = true
    · simp [numberLines, h1, h2]
    · simp [numberLines, h1, h2]

theorem cntB_append (xs ys : List JsStr) : cntB (xs ++ ys) = cntB xs + cntB ys := by
  simp [cntB, List.countP_append]

theorem cntH_append (xs ys : List JsStr) : cntH (xs ++ ys) = cntH xs + cntH ys := by
  simp [cntH, List.countP_append]

theorem cntB_singleton (c : JsStr) :
    cntB [c] = if jsStartsWith plusP c then 0 else 1 := by
  by_cases h2 : jsStartsWith plusP c = true
  · simp [cntB, List.countP_cons, h2]
  · simp [cntB, List.countP_cons, h2]

theorem cntH_singleton (c : JsStr) :
    cntH [c] = if jsStartsWith minusP c then 0 else 1 := by
  by_cases h1 : jsStartsWith minusP c = true
  · simp [cntH, List.countP_cons, h1]
  · simp [cntH, List.countP_cons, h1]

/-! ### Processing a block of content lines -/

theorem foldl_content (cs : List JsStr) :
    ∀ (hks : List Hunk) (hdr : JsStr) (L : List LineRecord) (b h : Nat),
      (∀ l ∈ cs, jsStartsWith hdrP l = false) →
      cs.foldl parsePatchStep ⟨hks, some ⟨hdr, L⟩, b, h⟩ =
        ⟨hks, some ⟨hdr, L ++ numberLines b h cs⟩, b + cntB cs, h + cntH cs⟩ := by
  induction cs with
  | nil =>
    intro hks hdr L b h _
    simp [numberLines, cntB, cntH]
  | cons c cs ih =>
    intro hks hdr L b h hall
    rw [List.foldl_cons,
      parsePatchStep_content _ ⟨hdr, L⟩ c (hall c (List.mem_cons_self c cs)) rfl,
      ih hks hdr (L ++ [mkRec b h c]) _ _ (fun l hl => hall l (List.mem_cons_of_mem c hl)),
      numberLines_cons, cntB_cons, cntH_cons]
    by_cases h1 : jsStartsWith minusP c = true
    · have h2 := startsWith_minus_not_plus h1
      simp [h1, h2, List.append_assoc, Nat.add_assoc]
    · by_cases h2 : jsStartsWith plusP c = true
      · simp [h1, h2, List.append_assoc, Nat.add_assoc]
      · simp [h1, h2, List.append_assoc, Nat.add_assoc]

/-! ### The loop invariant -/

theorem openGood_hunkGood {b h : Nat} {hk : Hunk} (hg : openGood b h hk) : hunkGood hk := by
  obtain ⟨a1, a2, a3, b0, h0, c1, c2, -, -⟩ := hg
  exact ⟨a1, a2, a3, b0, h0, c1, c2⟩

theorem stInv_step (st : ParseState) (line : JsStr) (hnl : nl ∉ line) (hinv : stInv st) :
    stInv (parsePatchStep st line) := by
  obtain ⟨hclosed, hopen⟩ := hinv
  have hclosed' : ∀ hk ∈ st.hunks ++ st.currentHunk.toList, hunkGood hk := by
    intro hk hmem
    rcases List.mem_append.mp hmem with hm | hm
    · exact hclosed hk hm
    · cases hcur : st.currentHunk with
      | none => rw [hcur] at hm; simp at hm
      | some hk' =>
        rw [hcur] at hm
        simp at hm
        rw [hm]
        exact openGood_hunkGood (hopen hk' hcur)
  by_cases hh : jsStartsWith hdrP line = true
  · cases hm : headerMatch line with
    | some p =>
      obtain ⟨bs, hs⟩ := p
      rw [parsePatchStep_header_some st line bs hs hh hm]
      refine ⟨hclosed', ?_⟩
      intro hk hcur
      injection hcur with hcur
      rw [← hcur]
      refine ⟨hh, hnl, by simp, bs, hs, ?_, by simp [numberLines], by simp [cntB], by simp [cntH]⟩
      intro bs' hs' hm'
      rw [hm] at hm'
      injection hm' with hm'
      injection hm' with e1 e2
      exact ⟨e1, e2⟩
    | none =>
      rw [parsePatchStep_header_none st line hh hm]
      refine ⟨hclosed', ?_⟩
      intro hk hcur
      injection hcur with hcur
      rw [← hcur]
      refine ⟨hh, hnl, by simp, st.baseLine, st.headLine, ?_,
        by simp [numberLines], by simp [cntB], by simp [cntH]⟩
      intro bs' hs' hm'
      rw [hm] at hm'
      exact absurd hm' (by simp)
  · replace hh : jsStartsWith hdrP line = false := by
      cases hb : jsStartsWith hdrP line
      · rfl
      · exact absurd hb hh
    cases hcur : st.currentHunk with
    | none =>
      rw [parsePatchStep_no_hunk st line hh hcur]
      exact ⟨hclosed, hopen⟩
    | some hk =>
      rw [parsePatchStep_content st hk line hh hcur]
      obtain ⟨a1, a2, a3, b0, h0, c1, c2, c3, c4⟩ := hopen hk hcur
      refine ⟨hclosed, ?_⟩
      intro hk' hcur'
      injection hcur' with hcur'
      rw [← hcur']
      refine ⟨a1, a2, ?_, b0, h0, c1, ?_, ?_, ?_⟩
      · intro r hr
        rcases List.mem_append.mp hr with hm | hm
        · exact a3 r hm
        · simp at hm
          rw [hm, mkRec_content]
          exact ⟨hh, hnl⟩
      · show hk.lines ++ [mkRec st.baseLine st.headLine line] =
          numberLines b0 h0 ((hk.lines ++ [mkRec st.baseLine st.headLine line]).map LineRecord.content)
        rw [List.map_append, numberLines_append, ← c2]
        simp [mkRec_content, numberLines_singleton, ← c3, ← c4]
      · show st.baseLine + (if jsStartsWith plusP line then 0 else 1) =
          b0 + cntB ((hk.lines ++ [mkRec st.baseLine st.headLine line]).map LineRecord.content)
        rw [List.map_append, cntB_append]
        simp [mkRec_content, cntB_singleton]
        omega
      · show st.headLine + (if jsStartsWith minusP line then 0 else 1) =
          h0 + cntH ((hk.lines ++ [mkRec st.baseLine st.headLine line]).map LineRecord.content)
        rw [List.map_append, cntH_append]
        simp [mkRec_content, cntH_singleton]
        omega

theorem stInv_foldl (ls : List JsStr) :
    ∀ st, (∀ l ∈ ls, nl ∉ l) → stInv st → stInv (ls.foldl parsePatchStep st) := by
  induction ls with
  | nil => intro st _ h; exact h
  | cons l ls ih =>
    intro st hnl h
    rw [List.foldl_cons]
    exact ih _ (fun x hx => hnl x (List.mem_cons_of_mem l hx))
      (stInv_step st l (hnl l (List.mem_cons_self l ls)) h)

theorem parsePatch_good (patch : JsStr) : ∀ hk ∈ parsePatch patch, hunkGood hk := by
  intro hk hmem
  have hinv : stInv ((jsSplit nl patch).foldl parsePatchStep ⟨[], none, 0, 0⟩) := by
    refine stInv_foldl (jsSplit nl patch) ⟨[], none, 0, 0⟩ ?_ ⟨by simp, by simp⟩
    intro l hl
    exact not_mem_of_mem_jsSplit nl patch l hl
  obtain ⟨hclosed, hopen⟩ := hinv
  unfold parsePatch finalizeState at hmem
  rcases List.mem_append.mp hmem with hm | hm
  · exact hclosed hk hm
  · cases hcur : ((jsSplit nl patch).foldl parsePatchStep ⟨[], none, 0, 0⟩).currentHunk with
    | none => rw [hcur] at hm; simp at hm
    | some hk' =>
      rw [hcur] at hm
      simp at hm
      rw [hm]
      exact openGood_hunkGood (hopen hk' hcur)

/-! ### Characterization of any record inside a parsed hunk -/

theorem parsePatch_split (patch : JsStr) (hk : Hunk) (hmem : hk ∈ parsePatch patch)
    (p : List LineRecord) (r : LineRecord) (s : List LineRecord)
    (hsp : hk.lines = p ++ r :: s) :
    ∃ b0 h0,
      (∀ bs hs, headerMatch hk.header = some (bs, hs) → b0 = bs ∧ h0 = hs) ∧
      r = mkRec (b0 + cntB (p.map LineRecord.content))
                (h0 + cntH (p.map LineRecord.content)) r.content := by
  obtain ⟨-, -, -, b0, h0, c1, c2⟩ := parsePatch_good patch hk hmem
  refine ⟨b0, h0, c1, ?_⟩
  rw [hsp] at c2
  exact numberLines_split _ b0 h0 p r s c2.symm

/-! ### Segmentation of the input into hunks -/

theorem finalize_map_header_step (st : ParseState) (l : JsStr) :
    (finalizeState (parsePatchStep st l)).map Hunk.header =
      (finalizeState st).map Hunk.header ++ (if jsStartsWith hdrP l then [l] else []) := by
  by_cases hh : jsStartsWith hdrP l = true
  · cases hm : headerMatch l with
    | some pr =>
      obtain ⟨bs, hs⟩ := pr
      rw [parsePatchStep_header_some st l bs hs hh hm]
      simp [finalizeState, hh]
    | none =>
      rw [parsePatchStep_header_none st l hh hm]
      simp [finalizeState, hh]
  · replace hh : jsStartsWith hdrP l = false := by
      cases hb : jsStartsWith hdrP l
      · rfl
      · exact absurd hb hh
    cases hcur : st.currentHunk with
    | none => rw [parsePatchStep_no_hunk st l hh hcur]; simp [hh]
    | some hk =>
      rw [parsePatchStep_content st hk l hh hcur]
      simp [finalizeState, hh, hcur]

theorem finalize_map_header_foldl (ls : List JsStr) :
    ∀ st, (finalizeState (ls.foldl parsePatchStep st)).map Hunk.header =
      (finalizeState st).map Hunk.header ++ ls.filter (fun l => jsStartsWith hdrP l) := by
  induction ls with
  | nil => intro st; simp
  | cons l ls ih =>
    intro st
    rw [List.foldl_cons, ih, finalize_map_header_step, List.filter_cons]
    by_cases hh : jsStartsWith hdrP l = true
    · simp [hh]
    · replace hh : jsStartsWith hdrP l = false := by
        cases hb : jsStartsWith hdrP l
        · rfl
        · exact absurd hb hh
      simp [hh]

theorem flatten_step (st : ParseState) (hk : Hunk) (l : JsStr)
    (hcur : st.currentHunk = some hk) :
    (finalizeState (parsePatchStep st l)).flatMap reconLines =
      (finalizeState st).flatMap reconLines ++ [l] ∧
    ∃ hk', (parsePatchStep st l).currentHunk = some hk' := by
  by_cases hh : jsStartsWith hdrP l = true
  · cases hm : headerMatch l with
    | some pr =>
      obtain ⟨bs, hs⟩ := pr
      rw [parsePatchStep_header_some st l bs hs hh hm]
      refine ⟨?_, ⟨l, []⟩, rfl⟩
      simp [finalizeState, reconLines, hcur]
    | none =>
      rw [parsePatchStep_header_none st l hh hm]
      refine ⟨?_, ⟨l, []⟩, rfl⟩
      simp [finalizeState, reconLines, hcur]
  · replace hh : jsStartsWith hdrP l = false := by
      cases hb : jsStartsWith hdrP l
      · rfl
      · exact absurd hb hh
    rw [parsePatchStep_content st hk l hh hcur]
    refine ⟨?_, ⟨hk.header, hk.lines ++ [mkRec st.baseLine st.headLine l]⟩, rfl⟩
    simp [finalizeState, reconLines, hcur, mkRec_content]

theorem flatten_foldl_open (ls : List JsStr) :
    ∀ st hk, st.currentHunk = some hk →
      (finalizeState (ls.foldl parsePatchStep st)).flatMap reconLines =
        (finalizeState st).flatMap reconLines ++ ls := by
  induction ls with
  | nil => intro st hk _; simp
  | cons l ls ih =>
    intro st hk hcur
    rw [List.foldl_cons]
    obtain ⟨hflat, hk', hcur'⟩ := flatten_step st hk l hcur
    rw [ih (parsePatchStep st l) hk' hcur', hflat, List.append_assoc]
    rfl

theorem flatten_foldl_closed (ls : List JsStr) :
    ∀ b h, (finalizeState (ls.foldl parsePatchStep ⟨[], none, b, h⟩)).flatMap reconLines =
      ls.dropWhile (fun l => !jsStartsWith hdrP l) := by
  induction ls with
  | nil => intro b h; simp [finalizeState]
  | cons l ls ih =>
    intro b h
    by_cases hh : jsStartsWith hdrP l = true
    · rw [List.foldl_cons]
      have hstep : parsePatchStep ⟨[], none, b, h⟩ l =
          match headerMatch l with
          | some (bs, hs) => ⟨[], some ⟨l, []⟩, bs, hs⟩
          | none => ⟨[], some ⟨l, []⟩, b, h⟩ := by
        cases hm : headerMatch l with
        | some pr =>
          obtain ⟨bs, hs⟩ := pr
          rw [parsePatchStep_header_some _ l bs hs hh hm]
          simp
        | none =>
          rw [parsePatchStep_header_none _ l hh hm]
          simp
      rw [List.dropWhile_cons_of_neg (by simp [hh])]
      cases hm : headerMatch l with
      | some pr =>
        obtain ⟨bs, hs⟩ := pr
        rw [hstep, hm, flatten_foldl_open ls _ ⟨l, []⟩ rfl]
        simp [finalizeState, reconLines]
      | none =>
        rw [hstep, hm, flatten_foldl_open ls _ ⟨l, []⟩ rfl]
        simp [finalizeState, reconLines]
    · replace hh : jsStartsWith hdrP l = false := by
        cases hb : jsStartsWith hdrP l
        · rfl
        · exact absurd hb hh
      rw [List.foldl_cons, parsePatchStep_no_hunk _ l hh rfl, ih b h,
        List.dropWhile_cons_of_pos (by simp [hh])]

/-! ### The claims -/

/-- C1: parsing `"@@ -1,2 +1,3 @@\n context\n-old\n+new1\n+new2"` yields
exactly one hunk whose header is the `@@ -1,2 +1,3 @@` line, with records in
order: context `" context"` numbered (1,1); removed `"-old"` with base 2 and
no head number; added `"+new1"` with head 2 and no base number; added
`"+new2"` with head 3 and no base number. -/
theorem C1_example_patch :
    parsePatch ("@@ -1,2 +1,3 @@\n context\n-old\n+new1\n+new2").toList =
      [⟨("@@ -1,2 +1,3 @@").toList,
        [⟨some 1, some 1, (" context").toList⟩,
         ⟨some 2, none, ("-old").toList⟩,
         ⟨none, some 2, ("+new1").toList⟩,
         ⟨none, some 3, ("+new2").toList⟩]⟩] := by decide

/-- C10: the counters start at 0, so when the very first header line fails
to match the `@@ -N[,M] +N[,M] @@` pattern, the records of that first hunk
are numbered from 0: a leading context line gets baseLineNumber 0 and
headLineNumber 0, not 1. -/
theorem C10_malformed_first_header_counts_from_zero :
    headerMatch ("@@ bad @@").toList = none ∧
    parsePatch ("@@ bad @@\n ctx").toList =
      [⟨("@@ bad @@").toList, [⟨some 0, some 0, (" ctx").toList⟩]⟩] := by decide

/-- C2: in every record produced by the parser, a content starting with `-`
has a base line number and no head line number, a content starting with `+`
has a head line number and no base line number, and any other content has
both; no record has both numbers absent. -/
theorem C2_line_number_invariant (patch : JsStr) (hk : Hunk) (r : LineRecord)
    (hhk : hk ∈ parsePatch patch) (hr : r ∈ hk.lines) :
    (jsStartsWith minusP r.content = true →
      (∃ b, r.baseLineNumber = some b) ∧ r.headLineNumber = none) ∧
    (jsStartsWith plusP r.content = true →
      (∃ h, r.headLineNumber = some h) ∧ r.baseLineNumber = none) ∧
    (jsStartsWith minusP r.content = false → jsStartsWith plusP r.content = false →
      (∃ b, r.baseLineNumber = some b) ∧ (∃ h, r.headLineNumber = some h)) ∧
    ¬(r.baseLineNumber = none ∧ r.headLineNumber = none) := by
  obtain ⟨p, s, hsp⟩ := List.append_of_mem hr
  obtain ⟨b0, h0, -, hrec⟩ := parsePatch_split patch hk hhk p r s hsp
  have hbase := congrArg LineRecord.baseLineNumber hrec
  have hhead := congrArg LineRecord.headLineNumber hrec
  by_cases h1 : jsStartsWith minusP r.content = true
  · have h2 := startsWith_minus_not_plus h1
    simp only [mkRec, h1, if_pos] at hbase hhead
    refine ⟨fun _ => ⟨⟨_, hbase⟩, hhead⟩, fun hp => absurd hp (by simp [h2]),
      fun hm _ => absurd h1 (by simp [hm]), fun hcon => ?_⟩
    rw [hbase] at hcon
    exact absurd hcon.1 (by simp)
  · have h1' : jsStartsWith minusP r.content = false := by
      cases hb : jsStartsWith minusP r.content
      · rfl
      · exact absurd hb h1
    by_cases h2 : jsStartsWith plusP r.content = true
    · simp only [mkRec, h1', h2, Bool.false_eq_true, if_false, if_pos] at hbase hhead
      refine ⟨fun hm => absurd hm (by simp [h1']), fun _ => ⟨⟨_, hhead⟩, hbase⟩,
        fun _ hp => absurd h2 (by simp [hp]), fun hcon => ?_⟩
      rw [hhead] at hcon
      exact absurd hcon.2 (by simp)
    · have h2' : jsStartsWith plusP r.content = false := by
        cases hb : jsStartsWith plusP r.content
        · rfl
        · exact absurd hb h2
      simp only [mkRec, h1', h2', Bool.false_eq_true, if_false] at hbase hhead
      refine ⟨fun hm => absurd hm (by simp [h1']), fun hp => absurd hp (by simp [h2']),
        fun _ _ => ⟨⟨_, hbase⟩, ⟨_, hhead⟩⟩, fun hcon => ?_⟩
      rw [hbase] at hcon
      exact absurd hcon.1 (by simp)

/-- Witness for C2 at the removed line `-old` of the C1 example patch. -/
theorem C2_line_number_invariant_witness :
    (⟨("@@ -1,2 +1,3 @@").toList,
      [⟨some 1, some 1, (" context").toList⟩,
       ⟨some 2, none, ("-old").toList⟩,
       ⟨none, some 2, ("+new1").toList⟩,
       ⟨none, some 3, ("+new2").toList⟩]⟩ : Hunk) ∈
        parsePatch ("@@ -1,2 +1,3 @@\n context\n-old\n+new1\n+new2").toList ∧
    ((jsStartsWith minusP ("-old").toList = true →
      (∃ b, (⟨some 2, none, ("-old").toList⟩ : LineRecord).baseLineNumber = some b) ∧
        (⟨some 2, none, ("-old").toList⟩ : LineRecord).headLineNumber = none) ∧
    (jsStartsWith plusP ("-old").toList = true →
      (∃ h, (⟨some 2, none, ("-old").toList⟩ : LineRecord).headLineNumber = some h) ∧
        (⟨some 2, none, ("-old").toList⟩ : LineRecord).baseLineNumber = none) ∧
    (jsStartsWith minusP ("-old").toList = false → jsStartsWith plusP ("-old").toList = false →
      (∃ b, (⟨some 2, none, ("-old").toList⟩ : LineRecord).baseLineNumber = some b) ∧
      (∃ h, (⟨some 2, none, ("-old").toList⟩ : LineRecord).headLineNumber = some h)) ∧
    ¬((⟨some 2, none, ("-old").toList⟩ : LineRecord).baseLineNumber = none ∧
      (⟨some 2, none, ("-old").toList⟩ : LineRecord).headLineNumber = none)) :=
  ⟨by decide,
   C2_line_number_invariant ("@@ -1,2 +1,3 @@\n context\n-old\n+new1\n+new2").toList
     ⟨("@@ -1,2 +1,3 @@").toList,
      [⟨some 1, some 1, (" context").toList⟩,
       ⟨some 2, none, ("-old").toList⟩,
       ⟨none, some 2, ("+new1").toList⟩,
       ⟨none, some 3, ("+new2").toList⟩]⟩
     ⟨some 2, none, ("-old").toList⟩ (by decide) (by decide)⟩

theorem cntB_map_content (p : List LineRecord) :
    cntB (p.map LineRecord.content) +
      p.countP (fun x => jsStartsWith plusP x.content) = p.length := by
  induction p with
  | nil => simp [cntB]
  | cons q p ih =>
    rw [List.map_cons, cntB_cons, List.countP_cons, List.length_cons]
    by_cases h2 : jsStartsWith plusP q.content = true
    · simp only [h2, if_pos]
      omega
    · have h2' : jsStartsWith plusP q.content = false := by
        cases hb : jsStartsWith plusP q.content
        · rfl
        · exact absurd hb h2
      simp only [h2', Bool.false_eq_true, if_false]
      omega

theorem cntH_map_content (p : List LineRecord) :
    cntH (p.map LineRecord.content) +
      p.countP (fun x => jsStartsWith minusP x.content) = p.length := by
  induction p with
  | nil => simp [cntH]
  | cons q p ih =>
    rw [List.map_cons, cntH_cons, List.countP_cons, List.length_cons]
    by_cases h1 : jsStartsWith minusP q.content = true
    · simp only [h1, if_pos]
      omega
    · have h1' : jsStartsWith minusP q.content = false := by
        cases hb : jsStartsWith minusP q.content
        · rfl
        · exact absurd hb h1
      simp only [h1', Bool.false_eq_true, if_false]
      omega

/-- C4 as stated is false: in
`"@@ -1,2 +1,3 @@\n a\n+b\n c"` the context record `" c"` gets
`(baseLineNumber, headLineNumber) = (2, 3)`, whose difference 1 is not the
hunk's starting delta `1 - 1 = 0`, because the added line `"+b"` before it
advanced only the head counter. -/
theorem C4_counterexample : ¬ C4Claim := by
  intro hcl
  have hval := hcl (("@@ -1,2 +1,3 @@\n a\n+b\n c").toList)
    ⟨("@@ -1,2 +1,3 @@").toList,
     [⟨some 1, some 1, (" a").toList⟩,
      ⟨none, some 2, ("+b").toList⟩,
      ⟨some 2, some 3, (" c").toList⟩]⟩
    (by decide) 1 1 (by decide)
    ⟨some 2, some 3, (" c").toList⟩ (by decide) 2 3 rfl rfl
  norm_num at hval

/-- C4 (amended): for a context record of a hunk whose header matched the
`@@ -N[,M] +N[,M] @@` pattern, headLineNumber minus baseLineNumber equals
the hunk's starting delta (headStart minus baseStart) plus the number of
added records minus the number of removed records preceding it in the
hunk.  The originally claimed equality with the bare starting delta holds
exactly when those two counts coincide (for example for context lines
preceding any added or removed line). -/
theorem C4_amended_context_delta (patch : JsStr) (hk : Hunk) (hmem : hk ∈ parsePatch patch)
    (bs hs : Nat) (hhdr : headerMatch hk.header = some (bs, hs))
    (p : List LineRecord) (r : LineRecord) (s : List LineRecord)
    (hsp : hk.lines = p ++ r :: s) (bn hn : Nat)
    (hb : r.baseLineNumber = some bn) (hh : r.headLineNumber = some hn) :
    (hn : Int) - (bn : Int) =
      ((hs : Int) - (bs : Int)) +
        (p.countP (fun x => jsStartsWith plusP x.content) : Int) -
        (p.countP (fun x => jsStartsWith minusP x.content) : Int) := by
  obtain ⟨b0, h0, hc, hrec⟩ := parsePatch_split patch hk hmem p r s hsp
  obtain ⟨e1, e2⟩ := hc bs hs hhdr
  subst e1
  subst e2
  have hbase := congrArg LineRecord.baseLineNumber hrec
  have hhead := congrArg LineRecord.headLineNumber hrec
  by_cases h1 : jsStartsWith minusP r.content = true
  · simp only [mkRec, h1, if_pos] at hhead
    rw [hh] at hhead
    exact absurd hhead (by simp)
  · have h1' : jsStartsWith minusP r.content = false := by
      cases hx : jsStartsWith minusP r.content
      · rfl
      · exact absurd hx h1
    by_cases h2 : jsStartsWith plusP r.content = true
    · simp only [mkRec, h1', h2, Bool.false_eq_true, if_false, if_pos] at hbase
      rw [hb] at hbase
      exact absurd hbase (by simp)
    · have h2' : jsStartsWith plusP r.content = false := by
        cases hx : jsStartsWith plusP r.content
        · rfl
        · exact absurd hx h2
      simp only [mkRec, h1', h2', Bool.false_eq_true, if_false] at hbase hhead
      rw [hb] at hbase
      rw [hh] at hhead
      injection hbase with hbase
      injection hhead with hhead
      have hcb := cntB_map_content p
      have hch := cntH_map_content p
      omega

/-- Witness for the amended C4 at the context record `" c"` of
`"@@ -1,2 +1,3 @@\n a\n+b\n c"`, preceded by one added and no removed
record: delta 3 - 2 = (1 - 1) + 1 - 0. -/
theorem C4_amended_context_delta_witness :
    (⟨("@@ -1,2 +1,3 @@").toList,
      [⟨some 1, some 1, (" a").toList⟩,
       ⟨none, some 2, ("+b").toList⟩,
       ⟨some 2, some 3, (" c").toList⟩]⟩ : Hunk) ∈
        parsePatch ("@@ -1,2 +1,3 @@\n a\n+b\n c").toList ∧
    headerMatch ("@@ -1,2 +1,3 @@").toList = some (1, 1) ∧
    ((3 : Nat) : Int) - ((2 : Nat) : Int) =
      ((((1 : Nat) : Int) - ((1 : Nat) : Int)) +
        ([(⟨some 1, some 1, (" a").toList⟩ : LineRecord),
          ⟨none, some 2, ("+b").toList⟩].countP
            (fun x => jsStartsWith plusP x.content) : Int)) -
        ([(⟨some 1, some 1, (" a").toList⟩ : LineRecord),
          ⟨none, some 2, ("+b").toList⟩].countP
            (fun x => jsStartsWith minusP x.content) : Int) :=
  ⟨by decide, by decide,
   C4_amended_context_delta ("@@ -1,2 +1,3 @@\n a\n+b\n c").toList
     ⟨("@@ -1,2 +1,3 @@").toList,
      [⟨some 1, some 1, (" a").toList⟩,
       ⟨none, some 2, ("+b").toList⟩,
       ⟨some 2, some 3, (" c").toList⟩]⟩
     (by decide) 1 1 (by decide)
     [⟨some 1, some 1, (" a").toList⟩, ⟨none, some 2, ("+b").toList⟩]
     ⟨some 2, some 3, (" c").toList⟩ [] rfl 2 3 rfl rfl⟩

/-- C6: a header line that fails the `@@ -N[,M] +N[,M] @@` pattern still
closes any open hunk and opens a new hunk with that raw line as header, but
leaves the base and head counters untouched; subsequent records are
numbered from the continued counters, as the second, end-to-end conjunct
shows on a patch whose second header is malformed. -/
theorem C6_malformed_header_keeps_counters :
    (∀ (st : ParseState) (line : JsStr),
      jsStartsWith hdrP line = true → headerMatch line = none →
      parsePatchStep st line =
        ⟨st.hunks ++ st.currentHunk.toList, some ⟨line, []⟩, st.baseLine, st.headLine⟩) ∧
    parsePatch ("@@ -5,1 +7,2 @@\n a\n@@ malformed\n b").toList =
      [⟨("@@ -5,1 +7,2 @@").toList, [⟨some 5, some 7, (" a").toList⟩]⟩,
       ⟨("@@ malformed").toList, [⟨some 6, some 8, (" b").toList⟩]⟩] :=
  ⟨fun st line hh hm => parsePatchStep_header_none st line hh hm, by decide⟩

/-- Witness for C6 at a concrete malformed header line and state. -/
theorem C6_malformed_header_keeps_counters_witness :
    jsStartsWith hdrP ("@@ bogus").toList = true ∧
    headerMatch ("@@ bogus").toList = none ∧
    parsePatchStep ⟨[], none, 4, 9⟩ ("@@ bogus").toList =
      ⟨[], some ⟨("@@ bogus").toList, []⟩, 4, 9⟩ :=
  ⟨by decide, by decide,
   C6_malformed_header_keeps_counters.1 ⟨[], none, 4, 9⟩ ("@@ bogus").toList
     (by decide) (by decide)⟩

/-- C7: the parser emits one hunk per `@@`-starting line, in input order
(first conjunct: the hunk headers are exactly the header lines, in order);
every line from the first header on belongs to the hunk of the most recent
header, including a hunk still open at end of input (second conjunct: the
concatenation of all reconstructed hunks is the input's lines from the
first header on, so lines before the first header are dropped); records
never hold header lines (third conjunct). -/
theorem C7_hunk_segmentation (patch : JsStr) :
    ((parsePatch patch).map Hunk.header =
      (jsSplit nl patch).filter (fun l => jsStartsWith hdrP l)) ∧
    ((parsePatch patch).flatMap reconLines =
      (jsSplit nl patch).dropWhile (fun l => !jsStartsWith hdrP l)) ∧
    (∀ hk ∈ parsePatch patch, jsStartsWith hdrP hk.header = true ∧
      ∀ r ∈ hk.lines, jsStartsWith hdrP r.content = false) := by
  refine ⟨?_, ?_, ?_⟩
  · rw [parsePatch, finalize_map_header_foldl]
    simp [finalizeState]
  · rw [parsePatch]
    exact flatten_foldl_closed (jsSplit nl patch) 0 0
  · intro hk hmem
    obtain ⟨a1, -, a3, -⟩ := parsePatch_good patch hk hmem
    exact ⟨a1, fun r hr => (a3 r hr).1⟩

/-- Witness for C7 on a patch with a dropped leading line and two hunks. -/
theorem C7_hunk_segmentation_witness :
    ((parsePatch ("junk\n@@ -1 +1 @@\n x\n@@ -9 +9 @@\n-y").toList).map Hunk.header =
      (jsSplit nl ("junk\n@@ -1 +1 @@\n x\n@@ -9 +9 @@\n-y").toList).filter
        (fun l => jsStartsWith hdrP l)) ∧
    ((parsePatch ("junk\n@@ -1 +1 @@\n x\n@@ -9 +9 @@\n-y").toList).flatMap reconLines =
      (jsSplit nl ("junk\n@@ -1 +1 @@\n x\n@@ -9 +9 @@\n-y").toList).dropWhile
        (fun l => !jsStartsWith hdrP l)) ∧
    (∀ hk ∈ parsePatch ("junk\n@@ -1 +1 @@\n x\n@@ -9 +9 @@\n-y").toList,
      jsStartsWith hdrP hk.header = true ∧
      ∀ r ∈ hk.lines, jsStartsWith hdrP r.content = false) :=
  C7_hunk_segmentation ("junk\n@@ -1 +1 @@\n x\n@@ -9 +9 @@\n-y").toList

/-- C5: for a well-formed patch text (every `@@`-starting line matches the
`@@ -N[,M] +N[,M] @@` pattern), re-parsing the concatenation of a produced
hunk's reconstructed lines — its raw header followed by its records'
contents, joined by newlines — yields that single hunk back, with the same
record sequence. -/
theorem C5_reparse_round_trip (patch : JsStr)
    (hwf : ∀ l ∈ jsSplit nl patch, jsStartsWith hdrP l = true → headerMatch l ≠ none)
    (hk : Hunk) (hmem : hk ∈ parsePatch patch) :
    parsePatch (joinNL (hk.header :: hk.lines.map LineRecord.content)) = [hk] := by
  obtain ⟨a1, a2, a3, b0, h0, c1, c2⟩ := parsePatch_good patch hk hmem
  have hmap : (parsePatch patch).map Hunk.header =
      (jsSplit nl patch).filter (fun l => jsStartsWith hdrP l) := by
    rw [parsePatch, finalize_map_header_foldl]
    simp [finalizeState]
  have hmemhdr : hk.header ∈ (jsSplit nl patch).filter (fun l => jsStartsWith hdrP l) := by
    rw [← hmap]
    exact List.mem_map_of_mem Hunk.header hmem
  have hline : hk.header ∈ jsSplit nl patch := (List.mem_filter.mp hmemhdr).1
  obtain ⟨pr, hpr⟩ : ∃ pr, headerMatch hk.header = some pr := by
    cases hx : headerMatch hk.header with
    | none => exact absurd hx (hwf hk.header hline a1)
    | some pr => exact ⟨pr, rfl⟩
  obtain ⟨bs, hs⟩ := pr
  obtain ⟨e1, e2⟩ := c1 bs hs hpr
  subst e1
  subst e2
  have hsplit : jsSplit nl (joinNL (hk.header :: hk.lines.map LineRecord.content)) =
      hk.header :: hk.lines.map LineRecord.content := by
    apply jsSplit_joinNL _ (by simp)
    intro s hs'
    rcases List.mem_cons.mp hs' with h | h
    · rw [h]
      exact a2
    · obtain ⟨r, hr, hrc⟩ := List.mem_map.mp h
      rw [← hrc]
      exact (a3 r hr).2
  have hcontents : ∀ l ∈ hk.lines.map LineRecord.content, jsStartsWith hdrP l = false := by
    intro l hl
    obtain ⟨r, hr, hrc⟩ := List.mem_map.mp hl
    rw [← hrc]
    exact (a3 r hr).1
  rw [parsePatch, hsplit, List.foldl_cons,
    parsePatchStep_header_some ⟨[], none, 0, 0⟩ hk.header b0 h0 a1 hpr]
  have hst : (⟨([] : List Hunk) ++ (Option.toList (none : Option Hunk)),
      some ⟨hk.header, []⟩, b0, h0⟩ : ParseState) =
      ⟨[], some ⟨hk.header, []⟩, b0, h0⟩ := by simp
  rw [hst, foldl_content _ [] hk.header [] b0 h0 hcontents]
  simp only [finalizeState, Option.toList_some, List.nil_append]
  rw [← c2]

/-- Witness for C5 on the C1 example patch and its single hunk. -/
theorem C5_reparse_round_trip_witness :
    (∀ l ∈ jsSplit nl ("@@ -1,2 +1,3 @@\n context\n-old\n+new1\n+new2").toList,
      jsStartsWith hdrP l = true → headerMatch l ≠ none) ∧
    (⟨("@@ -1,2 +1,3 @@").toList,
      [⟨some 1, some 1, (" context").toList⟩,
       ⟨some 2, none, ("-old").toList⟩,
       ⟨none, some 2, ("+new1").toList⟩,
       ⟨none, some 3, ("+new2").toList⟩]⟩ : Hunk) ∈
        parsePatch ("@@ -1,2 +1,3 @@\n context\n-old\n+new1\n+new2").toList ∧
    parsePatch (joinNL (("@@ -1,2 +1,3 @@").toList ::
      ([⟨some 1, some 1, (" context").toList⟩,
        ⟨some 2, none, ("-old").toList⟩,
        ⟨none, some 2, ("+new1").toList⟩,
        ⟨none, some 3, ("+new2").toList⟩] : List LineRecord).map LineRecord.content)) =
      [⟨("@@ -1,2 +1,3 @@").toList,
        [⟨some 1, some 1, (" context").toList⟩,
         ⟨some 2, none, ("-old").toList⟩,
         ⟨none, some 2, ("+new1").toList⟩,
         ⟨none, some 3, ("+new2").toList⟩]⟩] :=
  ⟨by decide, by decide,
   C5_reparse_round_trip ("@@ -1,2 +1,3 @@\n context\n-old\n+new1\n+new2").toList
     (by decide)
     ⟨("@@ -1,2 +1,3 @@").toList,
      [⟨some 1, some 1, (" context").toList⟩,
       ⟨some 2, none, ("-old").toList⟩,
       ⟨none, some 2, ("+new1").toList⟩,
       ⟨none, some 3, ("+new2").toList⟩]⟩ (by decide)⟩

/-- C3: the rate-limit guard returns the `{error, retry_after}` object
instead of raising exactly when the wrapped call failed with status 403 and
the `x-ratelimit-remaining` header is exactly the string "0"; every other
failure is re-raised unchanged, and a success returns the raw axios
response unchanged. -/
theorem C3_rate_limit_guard {α : Type} (call : Except AxiosError (AxiosSuccess α)) :
    (∀ resp, call = .ok resp → makeGitHubRequest call = .success resp) ∧
    (∀ e, call = .error e →
      ((∃ r, e.response = some r ∧ r.status = 403 ∧
          r.headers.xRatelimitRemaining = some "0") →
        makeGitHubRequest call =
          .rateLimited "GitHub API rate limit exceeded"
            (e.response.bind fun r => r.headers.xRatelimitReset)) ∧
      (¬(∃ r, e.response = some r ∧ r.status = 403 ∧
          r.headers.xRatelimitRemaining = some "0") →
        makeGitHubRequest call = .thrown e)) := by
  constructor
  · intro resp hc
    subst hc
    rfl
  · intro e hc
    subst hc
    constructor
    · rintro ⟨r, hr, hst, hrem⟩
      simp [makeGitHubRequest, hr, hst, hrem]
    · intro hnot
      cases hre : e.response with
      | none => simp [makeGitHubRequest, hre]
      | some r =>
        push_neg at hnot
        have := hnot r hre
        by_cases hst : r.status = 403
        · have hrem := this hst
          simp [makeGitHubRequest, hre, hst, hrem]
        · simp [makeGitHubRequest, hre, hst]

/-- Witness for C3: a 403 failure with remaining quota "0" yields the
rate-limit object carrying the reset header. -/
theorem C3_rate_limit_guard_witness :
    ((Except.error ⟨some ⟨403, ⟨some "0", some "1726000000"⟩⟩, "Request failed"⟩ :
        Except AxiosError (AxiosSuccess Nat)) =
      .error ⟨some ⟨403, ⟨some "0", some "1726000000"⟩⟩, "Request failed"⟩) ∧
    (∃ r, (⟨some ⟨403, ⟨some "0", some "1726000000"⟩⟩, "Request failed"⟩ :
        AxiosError).response = some r ∧ r.status = 403 ∧
        r.headers.xRatelimitRemaining = some "0") ∧
    makeGitHubRequest (α := Nat)
        (.error ⟨some ⟨403, ⟨some "0", some "1726000000"⟩⟩, "Request failed"⟩) =
      .rateLimited "GitHub API rate limit exceeded"
        ((⟨some ⟨403, ⟨some "0", some "1726000000"⟩⟩, "Request failed"⟩ :
          AxiosError).response.bind fun r => r.headers.xRatelimitReset) :=
  ⟨rfl, ⟨⟨403, ⟨some "0", some "1726000000"⟩⟩, rfl, rfl, rfl⟩,
   ((C3_rate_limit_guard
       (.error ⟨some ⟨403, ⟨some "0", some "1726000000"⟩⟩, "Request failed"⟩)).2
     ⟨some ⟨403, ⟨some "0", some "1726000000"⟩⟩, "Request failed"⟩ rfl).1
     ⟨⟨403, ⟨some "0", some "1726000000"⟩⟩, rfl, rfl, rfl⟩⟩

/-- C8: the diff endpoint uses only the first listed parent as the compare
base (additional parents of merge commits are ignored), and when the
commit's parents list is empty or absent it answers 400 with
`{message: "No parent commit found"}` without making the compare call. -/
theorem C8_first_parent_only_and_no_parent
    (resp : AxiosSuccess CommitData)
    (compareCall : String → Except AxiosError (AxiosSuccess CompareData)) :
    ((resp.data.parents = none ∨ resp.data.parents = some []) →
      diffHandler (.ok resp) compareCall =
        (⟨400, .message "No parent commit found"⟩, none)) ∧
    (∀ pr rest, resp.data.parents = some (pr :: rest) → pr.sha ≠ "" →
      (diffHandler (.ok resp) compareCall).2 = some pr.sha) := by
  constructor
  · intro hp
    rcases hp with hp | hp
    · simp [diffHandler, makeGitHubRequest, hp, isFalsyStr]
    · simp [diffHandler, makeGitHubRequest, hp, isFalsyStr]
  · intro pr rest hp hsha
    have hoid : (resp.data.parents.bind List.head?).map ParentRef.sha = some pr.sha := by
      rw [hp]
      rfl
    have hcond : isFalsyStr (some pr.sha) = false := by
      simp [isFalsyStr, hsha]
    simp only [diffHandler, makeGitHubRequest, hoid, hcond, Bool.false_eq_true, if_false,
      Option.getD_some]

/-- Witness for C8: an empty parents list gives the 400 response with no
compare call, and a two-parent (merge) commit records a compare call with
the first parent's sha only. -/
theorem C8_first_parent_only_and_no_parent_witness :
    diffHandler (.ok ⟨⟨some []⟩⟩) (fun _ => .error ⟨none, "unused"⟩) =
      (⟨400, .message "No parent commit found"⟩, none) ∧
    (diffHandler (.ok ⟨⟨some [⟨"abc123"⟩, ⟨"def456"⟩]⟩⟩)
        (fun _ => .error ⟨none, "unused"⟩)).2 = some "abc123" :=
  ⟨(C8_first_parent_only_and_no_parent ⟨⟨some []⟩⟩ (fun _ => .error ⟨none, "unused"⟩)).1
     (Or.inr rfl),
   (C8_first_parent_only_and_no_parent ⟨⟨some [⟨"abc123"⟩, ⟨"def456"⟩]⟩⟩
       (fun _ => .error ⟨none, "unused"⟩)).2
     ⟨"abc123"⟩ [⟨"def456"⟩] rfl (by decide)⟩

/-- C9: a changed file whose patch text is absent (e.g. a binary file) maps
to a FileDiff with an empty hunk list, the upstream status upper-cased as
changeKind, and the single filename as both base and head path. -/
theorem C9_absent_patch (file : UpstreamFile) (hp : file.patch = none) :
    (mapFile file).hunks = [] ∧
    (mapFile file).changeKind = jsToUpperCase file.status ∧
    (mapFile file).baseFile.path = file.filename ∧
    (mapFile file).headFile.path = file.filename := by
  simp [mapFile, hp]

/-- Witness for C9 at a binary file with no patch. -/
theorem C9_absent_patch_witness :
    (mapFile ⟨("modified").toList, "logo.png", none⟩).hunks = [] ∧
    (mapFile ⟨("modified").toList, "logo.png", none⟩).changeKind =
      jsToUpperCase ("modified").toList ∧
    (mapFile ⟨("modified").toList, "logo.png", none⟩).baseFile.path = "logo.png" ∧
    (mapFile ⟨("modified").toList, "logo.png", none⟩).headFile.path = "logo.png" :=
  C9_absent_patch ⟨("modified").toList, "logo.png", none⟩ rfl
